import Mathlib

/-!
# xmpp-logging-proxy: relay loop, reader pumps and session supervisor

A shallow embedding of `main.go`.  Byte slices and Go strings are lists of
bytes.  The network is the environment: every reader is given as the list of
the results its successive `Read` calls produce, and the `select` statement of
`proxy` is driven by a schedule that names, for every iteration, the channel
that fires and the error (if any) the following `Write` returns.  Everything
the loop does to the outside (printing, writing, answering a pump) is recorded
as a list of effects, in program order.
-/

namespace XmppProxy

/-! ## Library functions used by the program -/

abbrev Byte := UInt8

/-- Bytes of an ASCII string literal. -/
def strBytes (s : String) : List Byte := s.toList.map (fun c => c.toNat.toUInt8)

/-- Go `error` values that are not nil: an error produced by the network, or an
error wrapped with a message by `errors.Wrap`. -/
inductive GoError where
  | base (msg : String)
  | wrapped (cause : GoError) (msg : String)
  deriving DecidableEq

/-- Go `errors.Wrap(err, msg)` of `github.com/pkg/errors`: nil stays nil, any
other error is wrapped with the message. -/
def errorsWrap : Option GoError → String → Option GoError
  | none, _ => none
  | some e, msg => some (.wrapped e msg)

/-- Scan of `bytes.Replace`: the number is how many bytes of the current match
are still to be skipped.  At skip count zero a match of `old` at the current
position emits `new` and skips the match, anything else copies one byte. -/
def replaceFrom (old new : List Byte) : Nat → List Byte → List Byte
  | _, [] => []
  | k + 1, _ :: s => replaceFrom old new k s
  | 0, c :: s =>
    if old.isPrefixOf (c :: s) then new ++ replaceFrom old new (old.length - 1) s
    else c :: replaceFrom old new 0 s

/-- Go `bytes.Replace(s, old, new, -1)` and `strings.Replace(s, old, new, -1)`
for a non-empty `old` (the program never passes an empty one): the matches are
found from left to right, each search starting right after the previous match. -/
def bytesReplace (s old new : List Byte) : List Byte := replaceFrom old new 0 s

/-- Go `bytes.Contains(b, sub)`: `sub` starts at some position of `b`. -/
def bytesContains : List Byte → List Byte → Bool
  | [], sub => sub.isPrefixOf []
  | c :: s, sub => sub.isPrefixOf (c :: s) || bytesContains s sub

/-- Decimal digits of a natural number, most significant first; the first
argument bounds the number of digits. -/
def decDigits : Nat → Nat → List Byte
  | 0, _ => []
  | fuel + 1, n =>
    if n < 10 then [(48 + n).toUInt8]
    else decDigits fuel (n / 10) ++ [(48 + n % 10).toUInt8]

/-- The verb `%d` of `fmt.Printf` on an `int`. -/
def fmtInt : Int → List Byte
  | .ofNat n => decDigits (n + 1) n
  | .negSucc n => 45 :: decDigits (n + 2) (n + 1)

/-! ## Data model -/

/-- `type ReadResult struct { n int; err error; buf []byte }`; `buf` is the
content of the pump's buffer when the `Read` call returned. -/
structure ReadResult where
  n : Nat
  err : Option GoError
  buf : List Byte
  deriving DecidableEq

def bufSize : Nat := 4000

def clientTLSMarker : List Byte := strBytes "<starttls"

def serverTLSMarker : List Byte := strBytes "<proceed"

/-- The two substitution flags, `-replace-local` and `-replace-remote`. -/
structure Flags where
  flReplaceLocal : List Byte
  flReplaceRemote : List Byte
  deriving DecidableEq

inductive Side where
  | client
  | server
  deriving DecidableEq

/-- What the program does to the outside, in program order. -/
inductive Effect where
  | print (line : List Byte)
  | write (dest : Side) (bytes : List Byte)
  | next (pump : Side) (more : Bool)
  deriving DecidableEq

/-- Where the goroutine of `startReader` stands: in `reader.Read` or offering
its result on `results`; blocked on `<-readNext`; or returned. -/
inductive PumpState where
  | publishing
  | awaiting
  | terminated
  deriving DecidableEq

/-- One reader goroutine: the results its reader still has to produce, and
where it stands. -/
structure Pump where
  reads : List ReadResult
  state : PumpState
  deriving DecidableEq

/-- One firing of `select`: the channel that is ready, and the error the
`Write` of that iteration returns. -/
structure Ready where
  side : Side
  writeErr : Option GoError
  deriving DecidableEq

/-- The two pumps owned by one call of `proxy`. -/
structure Loop where
  client : Pump
  server : Pump
  deriving DecidableEq

/-- Either the loop is still in `select`, or `proxy` has returned. -/
inductive Status where
  | running
  | returned (err : Option GoError)
  deriving DecidableEq

structure Run where
  effects : List Effect
  loop : Loop
  status : Status
  deriving DecidableEq

/-! ## `startReader` -/

/-- `startReader(reader)`: the goroutine starts with its first `Read`. -/
def startReader (reader : List ReadResult) : Pump := ⟨reader, .publishing⟩

/-- `<-results`: receives the result the pump offers, which leaves the pump
blocked on `<-readNext`.  Nothing is received from a pump that is blocked on
`readNext`, has returned, or whose reader never returns from `Read`. -/
def Pump.recv (p : Pump) : Option (ReadResult × Pump) :=
  match p.state, p.reads with
  | .publishing, r :: rest => some (r, ⟨rest, .awaiting⟩)
  | _, _ => none

/-- `readNext <- more`: on true the pump reads again, on false it returns. -/
def Pump.send (p : Pump) (more : Bool) : Pump :=
  match p.state with
  | .awaiting => if more then ⟨p.reads, .publishing⟩ else ⟨p.reads, .terminated⟩
  | _ => p

def Pump.live (p : Pump) : Bool := p.state != .terminated

/-! ## `escape` -/

def escape (s : List Byte) : List Byte :=
  let s := bytesReplace s (strBytes "\\") (strBytes "\\\\")
  let s := bytesReplace s (strBytes "\n") (strBytes "\\n")
  s

/-! ## `proxy` -/

/-- `fmt.Printf("C%d|%s|\n", idx, escape(string(buf)))`, with the tag as a parameter. -/
def payloadLine (tag : String) (idx : Int) (buf : List Byte) : List Byte :=
  strBytes tag ++ fmtInt idx ++ strBytes "|" ++ escape buf ++ strBytes "|\n"

/-- `fmt.Printf("X%d: client goes TLS\n", idx)` and its siblings. -/
def noticeLine (idx : Int) (what : String) : List Byte :=
  strBytes "X" ++ fmtInt idx ++ strBytes ": " ++ strBytes what ++ strBytes "\n"

/-- `replace := len(rLocal) > 0 && len(rRemote) > 0`. -/
def replaceActive (fl : Flags) : Bool :=
  decide (fl.flReplaceLocal.length > 0) && decide (fl.flReplaceRemote.length > 0)

/-- The body of `case result := <-clientResults`; `pump` is the client pump
after the receive. -/
def clientCase (fl : Flags) (idx : Int) (untilTLS : Bool) (st : Loop)
    (result : ReadResult) (pump : Pump) (writeErr : Option GoError) : Run :=
  match result.err with
  | some err =>
    ⟨[], ⟨pump, st.server⟩, .returned (errorsWrap (some err) "failed to read from client")⟩
  | none =>
    let buf := result.buf.take result.n
    let buf := if replaceActive fl then bytesReplace buf fl.flReplaceLocal fl.flReplaceRemote else buf
    let line := Effect.print (payloadLine "C" idx buf)
    match writeErr with
    | some err =>
      ⟨[line, .write .server buf], ⟨pump, st.server⟩,
        .returned (errorsWrap (some err) "failed to write to server")⟩
    | none =>
      if untilTLS && bytesContains buf clientTLSMarker then
        ⟨[line, .write .server buf, .print (noticeLine idx "client goes TLS"), .next .client false],
          ⟨pump.send false, st.server⟩, .running⟩
      else
        ⟨[line, .write .server buf, .next .client true], ⟨pump.send true, st.server⟩, .running⟩

/-- The body of `case result := <-serverResults`; `pump` is the server pump
after the receive. -/
def serverCase (fl : Flags) (idx : Int) (untilTLS : Bool) (st : Loop)
    (result : ReadResult) (pump : Pump) (writeErr : Option GoError) : Run :=
  match result.err with
  | some err =>
    ⟨[], ⟨st.client, pump⟩, .returned (errorsWrap (some err) "failed to read from server")⟩
  | none =>
    let buf := result.buf.take result.n
    let line := Effect.print (payloadLine "S" idx buf)
    let buf := if replaceActive fl then bytesReplace buf fl.flReplaceRemote fl.flReplaceLocal else buf
    match writeErr with
    | some err =>
      ⟨[line, .write .client buf], ⟨st.client, pump⟩,
        .returned (errorsWrap (some err) "failed to write to client")⟩
    | none =>
      if untilTLS && bytesContains buf serverTLSMarker then
        ⟨[line, .write .client buf, .print (noticeLine idx "server goes TLS"), .next .server false],
          ⟨st.client, pump.send false⟩, .returned none⟩
      else
        ⟨[line, .write .client buf, .next .server true], ⟨st.client, pump.send true⟩, .running⟩

/-- One iteration of the `for { select { ... } }` of `proxy`.  A channel with
nothing to receive cannot fire: such a schedule entry leaves the loop waiting. -/
def proxyIter (fl : Flags) (idx : Int) (untilTLS : Bool) (st : Loop) (c : Ready) : Run :=
  match c.side with
  | .client =>
    match st.client.recv with
    | none => ⟨[], st, .running⟩
    | some (result, pump) => clientCase fl idx untilTLS st result pump c.writeErr
  | .server =>
    match st.server.recv with
    | none => ⟨[], st, .running⟩
    | some (result, pump) => serverCase fl idx untilTLS st result pump c.writeErr

/-- The loop of `proxy` along a schedule: it runs until an iteration returns;
when the schedule is used up the loop is left waiting in `select`. -/
def proxyLoop (fl : Flags) (idx : Int) (untilTLS : Bool) : Loop → List Ready → Run
  | st, [] => ⟨[], st, .running⟩
  | st, c :: cs =>
    match proxyIter fl idx untilTLS st c with
    | ⟨eff, st1, .running⟩ =>
      let r := proxyLoop fl idx untilTLS st1 cs
      ⟨eff ++ r.effects, r.loop, r.status⟩
    | r => r

/-- `proxy(client, server, idx, untilTLS)`. -/
def proxy (fl : Flags) (client server : List ReadResult) (idx : Int) (untilTLS : Bool)
    (sched : List Ready) : Run :=
  proxyLoop fl idx untilTLS ⟨startReader client, startReader server⟩ sched

/-! ## `serve` -/

/-- What the network does during one session: the result of `net.Dial`, the
reads of the two raw connections and of the two TLS connections wrapped around
them, and the schedules of the two phases. -/
structure Net where
  dial : Option GoError
  client : List ReadResult
  server : List ReadResult
  tlsClient : List ReadResult
  tlsServer : List ReadResult
  plainSched : List Ready
  tlsSched : List Ready
  deriving DecidableEq

/-- One call of `serve`: the two calls of `proxy` it made (if it made them),
everything printed, written and signalled, and what `serve` returned. -/
structure Session where
  plain : Option Run
  tls : Option Run
  effects : List Effect
  status : Status
  deriving DecidableEq

/-- `serve(client, idx, certificate)`. -/
def serve (fl : Flags) (net : Net) (idx : Int) : Session :=
  match net.dial with
  | some err => ⟨none, none, [], .returned (errorsWrap (some err) "failed to connect to server")⟩
  | none =>
    let p1 := proxy fl net.client net.server idx true net.plainSched
    match p1.status with
    | .running => ⟨some p1, none, p1.effects, .running⟩
    | .returned (some err) =>
      ⟨some p1, none, p1.effects, .returned (errorsWrap (some err) "session terminated")⟩
    | .returned none =>
      let p2 := proxy fl net.tlsClient net.tlsServer idx false net.tlsSched
      let eff := p1.effects ++ [.print (noticeLine idx "eavesdropping TLS")] ++ p2.effects
      match p2.status with
      | .running => ⟨some p1, some p2, eff, .running⟩
      | .returned err => ⟨some p1, some p2, eff, .returned (errorsWrap err "TLS session terminated")⟩

/-- Number of pumps of a call of `proxy` whose goroutine has not returned. -/
def Run.livePumps (r : Run) : Nat :=
  (if r.loop.client.live then 1 else 0) + (if r.loop.server.live then 1 else 0)

/-- Number of reader goroutines of the session that were started and have not
returned. -/
def Session.livePumps (s : Session) : Nat :=
  (match s.plain with | some r => r.livePumps | none => 0) +
  (match s.tls with | some r => r.livePumps | none => 0)

/-! ## Specification-side definitions -/

/-- Spec-side reading of "`P` with every non-overlapping occurrence of `L`
replaced by `R` and nothing else altered": either `P` holds no occurrence of
`L` and is left as it is, or `P` is `s ++ L ++ P1` where the `L` shown is the
leftmost occurrence, `s` is kept, that `L` becomes `R`, and the rest `P1` is
treated the same way. -/
inductive ReplacedEvery (L R : List Byte) : List Byte → List Byte → Prop where
  | done (s : List Byte) : ¬ L <:+: s → ReplacedEvery L R s s
  | occ (s P Q : List Byte) : ¬ L <:+: s ++ L.dropLast → ReplacedEvery L R P Q →
      ReplacedEvery L R (s ++ L ++ P) (s ++ R ++ Q)

/-- Spec-side escaping of one byte: a backslash becomes two backslashes, a
newline becomes a backslash followed by `n`, any other byte is kept. -/
def escapeByteSpec (c : Byte) : List Byte :=
  if c = 92 then [92, 92] else if c = 10 then [92, 110] else [c]

/-- The byte slices handed to `Write` on the connection of one side, in order. -/
def writesTo (side : Side) : List Effect → List (List Byte)
  | [] => []
  | .write d b :: rest => if d = side then b :: writesTo side rest else writesTo side rest
  | _ :: rest => writesTo side rest

/-- The slice a client outcome is turned into before it is printed and written:
`buf[:n]`, with the local -> remote substitution when the rule is active. -/
def clientOut (fl : Flags) (result : ReadResult) : List Byte :=
  if replaceActive fl then
    bytesReplace (result.buf.take result.n) fl.flReplaceLocal fl.flReplaceRemote
  else result.buf.take result.n

/-- The slice a server outcome is turned into after it is printed and before it
is written: `buf[:n]`, with the remote -> local substitution when the rule is
active. -/
def serverOut (fl : Flags) (result : ReadResult) : List Byte :=
  if replaceActive fl then
    bytesReplace (result.buf.take result.n) fl.flReplaceRemote fl.flReplaceLocal
  else result.buf.take result.n

/-- The error is a read or write failure of the network, wrapped once with the
message of the step that failed: the cause is the error of one of the given
read results, or the write error of one of the given schedule entries. -/
def IOFailure (client server : List ReadResult) (sched : List Ready) (e : GoError) : Prop :=
  ∃ cause,
    (e = .wrapped cause "failed to read from client" ∧ ∃ rr ∈ client, rr.err = some cause) ∨
    (e = .wrapped cause "failed to read from server" ∧ ∃ rr ∈ server, rr.err = some cause) ∨
    (e = .wrapped cause "failed to write to server" ∧ ⟨.client, some cause⟩ ∈ sched) ∨
    (e = .wrapped cause "failed to write to client" ∧ ⟨.server, some cause⟩ ∈ sched)

/-- The effect does not belong to the client case of the loop: it is not a
client payload line, not a write to the server, not the notice "client goes
TLS" and not an answer to the client pump. -/
def NotClientCase (idx : Int) (e : Effect) : Prop :=
  (∀ b, e ≠ .print (payloadLine "C" idx b)) ∧ (∀ b, e ≠ .write .server b) ∧
  e ≠ .print (noticeLine idx "client goes TLS") ∧ (∀ m, e ≠ .next .client m)

/-! ## Lemmas on the library functions -/

theorem bytesContains_iff (s sub : List Byte) : bytesContains s sub = true ↔ sub <:+: s := by
  induction s with
  | nil =>
    cases sub <;> simp [bytesContains, List.isPrefixOf]
  | cons c s ih =>
    simp only [bytesContains, Bool.or_eq_true, ih, List.infix_cons_iff,
      List.isPrefixOf_iff_prefix]

theorem replaceFrom_skip (old new : List Byte) (k : Nat) (s : List Byte) :
    replaceFrom old new k s = replaceFrom old new 0 (s.drop k) := by
  induction k generalizing s with
  | zero => simp
  | succ k ih =>
    cases s with
    | nil => simp [replaceFrom]
    | cons c s => simp [replaceFrom, ih s]

theorem bytesReplace_nil (old new : List Byte) : bytesReplace [] old new = [] := by
  simp [bytesReplace, replaceFrom]

theorem bytesReplace_append_of_ne_nil (old new rest : List Byte) (h : old ≠ []) :
    bytesReplace (old ++ rest) old new = new ++ bytesReplace rest old new := by
  obtain ⟨c, t, rfl⟩ := List.exists_cons_of_ne_nil h
  have hp : (c :: t).isPrefixOf (c :: (t ++ rest)) = true := by
    rw [List.isPrefixOf_iff_prefix]
    exact ⟨rest, rfl⟩
  simp only [bytesReplace, List.cons_append, replaceFrom, hp, if_true, List.length_cons,
    Nat.add_sub_cancel]
  rw [replaceFrom_skip]
  simp

theorem bytesReplace_cons_of_no_match (old new : List Byte) (c : Byte) (s : List Byte)
    (h : ¬ old <+: c :: s) : bytesReplace (c :: s) old new = c :: bytesReplace s old new := by
  have hp : (old.isPrefixOf (c :: s)) = false := by
    rw [← Bool.not_eq_true, List.isPrefixOf_iff_prefix]
    exact h
  simp [bytesReplace, replaceFrom, hp]

theorem not_infix_dropLast (L : List Byte) (h : L ≠ []) : ¬ L <:+: [] ++ L.dropLast := by
  intro hi
  have h1 := hi.length_le
  have h2 : 0 < L.length := List.length_pos.mpr h
  simp at h1
  omega

theorem ReplacedEvery.cons {L R P Q : List Byte} (c : Byte) (h : ReplacedEvery L R P Q)
    (hp : ¬ L <+: c :: P) : ReplacedEvery L R (c :: P) (c :: Q) := by
  cases h with
  | done s hs =>
    refine .done _ ?_
    rw [List.infix_cons_iff]
    rintro (h1 | h1)
    · exact hp h1
    · exact hs h1
  | occ s P1 Q1 hs hrest =>
    have key : ¬ L <:+: (c :: s) ++ L.dropLast := by
      rw [List.cons_append, List.infix_cons_iff]
      rintro (h1 | h1)
      · apply hp
        refine h1.trans ?_
        rw [List.prefix_cons_inj, List.append_assoc]
        exact (List.prefix_append_right_inj s).mpr
          ((List.dropLast_prefix L).trans (List.prefix_append L P1))
      · exact hs h1
    exact .occ (c :: s) P1 Q1 key hrest

theorem bytesReplace_replacedEvery (L R : List Byte) (hL : L ≠ []) :
    ∀ (n : Nat) (P : List Byte), P.length ≤ n → ReplacedEvery L R P (bytesReplace P L R) := by
  intro n
  induction n with
  | zero =>
    intro P hP
    have : P = [] := List.length_eq_zero.mp (Nat.le_zero.mp hP)
    subst this
    rw [bytesReplace_nil]
    refine .done _ ?_
    intro hi
    exact hL (List.infix_nil.mp hi)
  | succ n ih =>
    intro P hP
    cases P with
    | nil =>
      rw [bytesReplace_nil]
      refine .done _ ?_
      intro hi
      exact hL (List.infix_nil.mp hi)
    | cons c t =>
      by_cases hp : L <+: c :: t
      · obtain ⟨rest, hrest⟩ := hp
        rw [← hrest, bytesReplace_append_of_ne_nil L R rest hL]
        have hlen : rest.length ≤ n := by
          have h1 : (L ++ rest).length = (c :: t).length := by rw [hrest]
          have h2 : 0 < L.length := List.length_pos.mpr hL
          simp at h1 hP
          omega
        have := ReplacedEvery.occ [] rest (bytesReplace rest L R) (not_infix_dropLast L hL)
          (ih rest hlen)
        simpa using this
      · rw [bytesReplace_cons_of_no_match L R c t hp]
        exact (ih t (by simpa using hP)).cons c hp

theorem leftmost_match_overlap {L s a P P1 : List Byte} (ha : a ≠ [])
    (h : L ++ P = a ++ (L ++ P1)) : L <:+: (s ++ a) ++ L.dropLast := by
  have hp1 : L <+: a ++ (L ++ P1) := ⟨P, h⟩
  have hp2 : a ++ L.dropLast <+: a ++ (L ++ P1) :=
    (List.prefix_append_right_inj a).mpr ((List.dropLast_prefix L).trans (List.prefix_append L P1))
  have hlen : L.length ≤ (a ++ L.dropLast).length := by
    have : 0 < a.length := List.length_pos.mpr ha
    simp only [List.length_append, List.length_dropLast]
    omega
  obtain ⟨t, ht⟩ := List.prefix_of_prefix_length_le hp1 hp2 hlen
  exact ⟨s, t, by rw [List.append_assoc s a, ← ht, List.append_assoc]⟩

theorem leftmost_match_unique {L s s1 P P1 : List Byte}
    (h1 : ¬ L <:+: s ++ L.dropLast) (h2 : ¬ L <:+: s1 ++ L.dropLast)
    (h : s ++ L ++ P = s1 ++ L ++ P1) : s = s1 ∧ P = P1 := by
  rw [List.append_assoc, List.append_assoc, List.append_eq_append_iff] at h
  rcases h with ⟨a, hs, hrest⟩ | ⟨a, hs, hrest⟩
  · by_cases ha : a = []
    · subst ha
      simp only [List.append_nil, List.nil_append, List.append_cancel_left_eq] at hs hrest
      exact ⟨hs.symm, hrest⟩
    · exact absurd (hs ▸ leftmost_match_overlap ha hrest) h2
  · by_cases ha : a = []
    · subst ha
      simp only [List.append_nil, List.nil_append, List.append_cancel_left_eq] at hs hrest
      exact ⟨hs, hrest.symm⟩
    · exact absurd (hs ▸ leftmost_match_overlap ha hrest) h1

theorem ReplacedEvery.unique {L R P Q1 Q2 : List Byte} (h1 : ReplacedEvery L R P Q1)
    (h2 : ReplacedEvery L R P Q2) : Q1 = Q2 := by
  induction h1 generalizing Q2 with
  | done s hs =>
    cases h2 with
    | done => rfl
    | occ s1 P1 Q1 _ _ => exact absurd ⟨s1, P1, rfl⟩ hs
  | occ s P Q hs hrest ih =>
    generalize hX : s ++ L ++ P = X at h2
    cases h2 with
    | done _ hX1 => exact absurd ⟨s, P, hX⟩ hX1
    | occ s1 P1 Q1 hs1 hrest1 =>
      obtain ⟨rfl, rfl⟩ := leftmost_match_unique hs hs1 hX
      rw [ih hrest1]

theorem bytesReplace_single (a : Byte) (new s : List Byte) :
    bytesReplace s [a] new = s.flatMap (fun c => if c = a then new else [c]) := by
  induction s with
  | nil => simp [bytesReplace, replaceFrom]
  | cons c s ih =>
    by_cases h : c = a
    · subst h
      have := bytesReplace_append_of_ne_nil [c] new s (by simp)
      simp only [List.singleton_append] at this
      rw [this, ih]
      simp
    · have hp : ¬ [a] <+: c :: s := by
        rintro ⟨rest, hrest⟩
        simp only [List.singleton_append, List.cons.injEq] at hrest
        exact h hrest.1.symm
      rw [bytesReplace_cons_of_no_match _ _ _ _ hp, ih]
      simp [h]

theorem escape_eq_flatMap (s : List Byte) : escape s = s.flatMap escapeByteSpec := by
  simp only [escape]
  have h1 : strBytes "\\" = [92] := by decide
  have h2 : strBytes "\\\\" = [92, 92] := by decide
  have h3 : strBytes "\n" = [10] := by decide
  have h4 : strBytes "\\n" = [92, 110] := by decide
  rw [h1, h2, h3, h4, bytesReplace_single, bytesReplace_single, List.flatMap_assoc]
  congr 1
  funext c
  by_cases hc : c = 92
  · subst hc
    simp [escapeByteSpec]
  · by_cases hn : c = 10
    · subst hn
      simp [escapeByteSpec]
    · simp [escapeByteSpec, hc, hn]

theorem newline_not_mem_escape (s : List Byte) : (10 : Byte) ∉ escape s := by
  rw [escape_eq_flatMap]
  simp only [List.mem_flatMap, not_exists, not_and]
  intro c _
  unfold escapeByteSpec
  split
  · decide
  · split
    · decide
    · rename_i h
      simp only [List.mem_singleton]
      exact fun h2 => h h2.symm

theorem newline_not_mem_decDigits (fuel n : Nat) : (10 : Byte) ∉ decDigits fuel n := by
  induction fuel generalizing n with
  | zero => simp [decDigits]
  | succ fuel ih =>
    unfold decDigits
    split
    · rename_i h
      interval_cases n <;> decide
    · have hm : n % 10 < 10 := Nat.mod_lt _ (by norm_num)
      simp only [List.mem_append, List.mem_singleton, not_or]
      refine ⟨ih _, ?_⟩
      generalize n % 10 = m at hm
      interval_cases m <;> decide

theorem newline_not_mem_fmtInt (i : Int) : (10 : Byte) ∉ fmtInt i := by
  cases i with
  | ofNat n => exact newline_not_mem_decDigits _ _
  | negSucc n =>
    simp only [fmtInt, List.mem_cons, not_or]
    exact ⟨by decide, newline_not_mem_decDigits _ _⟩

/-! ## Lemmas on one iteration of the loop -/

theorem proxyIter_client {st : Loop} {result : ReadResult} {pump : Pump}
    (fl : Flags) (idx : Int) (untilTLS : Bool) (w : Option GoError)
    (h : st.client.recv = some (result, pump)) :
    proxyIter fl idx untilTLS st ⟨.client, w⟩ = clientCase fl idx untilTLS st result pump w := by
  simp [proxyIter, h]

theorem proxyIter_server {st : Loop} {result : ReadResult} {pump : Pump}
    (fl : Flags) (idx : Int) (untilTLS : Bool) (w : Option GoError)
    (h : st.server.recv = some (result, pump)) :
    proxyIter fl idx untilTLS st ⟨.server, w⟩ = serverCase fl idx untilTLS st result pump w := by
  simp [proxyIter, h]

theorem replaceActive_eq_true {fl : Flags} (hL : fl.flReplaceLocal ≠ [])
    (hR : fl.flReplaceRemote ≠ []) : replaceActive fl = true := by
  simp [replaceActive, List.length_pos, hL, hR]

theorem replaceActive_eq_false {fl : Flags}
    (h : fl.flReplaceLocal = [] ∨ fl.flReplaceRemote = []) : replaceActive fl = false := by
  rcases h with h | h <;> simp [replaceActive, h]

theorem recv_pump {p pump : Pump} {result : ReadResult} (h : p.recv = some (result, pump)) :
    p = ⟨result :: pump.reads, .publishing⟩ ∧ pump.state = .awaiting := by
  obtain ⟨reads, state⟩ := p
  cases state <;> cases reads <;> simp [Pump.recv] at h
  obtain ⟨rfl, rfl⟩ := h
  simp

theorem clientCase_writeErr (fl : Flags) (idx : Int) (untilTLS : Bool) (st : Loop)
    (result : ReadResult) (pump : Pump) (e : GoError) (herr : result.err = none) :
    clientCase fl idx untilTLS st result pump (some e) =
      ⟨[.print (payloadLine "C" idx (clientOut fl result)), .write .server (clientOut fl result)],
        ⟨pump, st.server⟩, .returned (some (.wrapped e "failed to write to server"))⟩ := by
  simp [clientCase, clientOut, herr, errorsWrap]

theorem clientCase_marker (fl : Flags) (idx : Int) (untilTLS : Bool) (st : Loop)
    (result : ReadResult) (pump : Pump) (herr : result.err = none)
    (hm : (untilTLS && bytesContains (clientOut fl result) clientTLSMarker) = true) :
    clientCase fl idx untilTLS st result pump none =
      ⟨[.print (payloadLine "C" idx (clientOut fl result)), .write .server (clientOut fl result),
          .print (noticeLine idx "client goes TLS"), .next .client false],
        ⟨pump.send false, st.server⟩, .running⟩ := by
  simp only [clientOut] at hm
  simp only [clientCase, clientOut, herr, hm, if_true]

theorem clientCase_plain (fl : Flags) (idx : Int) (untilTLS : Bool) (st : Loop)
    (result : ReadResult) (pump : Pump) (herr : result.err = none)
    (hm : (untilTLS && bytesContains (clientOut fl result) clientTLSMarker) = false) :
    clientCase fl idx untilTLS st result pump none =
      ⟨[.print (payloadLine "C" idx (clientOut fl result)), .write .server (clientOut fl result),
          .next .client true],
        ⟨pump.send true, st.server⟩, .running⟩ := by
  simp only [clientOut] at hm
  simp only [clientCase, clientOut, herr, hm, Bool.false_eq_true, if_false]

theorem serverCase_writeErr (fl : Flags) (idx : Int) (untilTLS : Bool) (st : Loop)
    (result : ReadResult) (pump : Pump) (e : GoError) (herr : result.err = none) :
    serverCase fl idx untilTLS st result pump (some e) =
      ⟨[.print (payloadLine "S" idx (result.buf.take result.n)),
          .write .client (serverOut fl result)],
        ⟨st.client, pump⟩, .returned (some (.wrapped e "failed to write to client"))⟩ := by
  simp [serverCase, serverOut, herr, errorsWrap]

theorem serverCase_marker (fl : Flags) (idx : Int) (untilTLS : Bool) (st : Loop)
    (result : ReadResult) (pump : Pump) (herr : result.err = none)
    (hm : (untilTLS && bytesContains (serverOut fl result) serverTLSMarker) = true) :
    serverCase fl idx untilTLS st result pump none =
      ⟨[.print (payloadLine "S" idx (result.buf.take result.n)),
          .write .client (serverOut fl result),
          .print (noticeLine idx "server goes TLS"), .next .server false],
        ⟨st.client, pump.send false⟩, .returned none⟩ := by
  simp only [serverOut] at hm
  simp only [serverCase, serverOut, herr, hm, if_true]

theorem serverCase_plain (fl : Flags) (idx : Int) (untilTLS : Bool) (st : Loop)
    (result : ReadResult) (pump : Pump) (herr : result.err = none)
    (hm : (untilTLS && bytesContains (serverOut fl result) serverTLSMarker) = false) :
    serverCase fl idx untilTLS st result pump none =
      ⟨[.print (payloadLine "S" idx (result.buf.take result.n)),
          .write .client (serverOut fl result), .next .server true],
        ⟨st.client, pump.send true⟩, .running⟩ := by
  simp only [serverOut] at hm
  simp only [serverCase, serverOut, herr, hm, Bool.false_eq_true, if_false]

theorem clientCase_take2 (fl : Flags) (idx : Int) (untilTLS : Bool) (st : Loop)
    (result : ReadResult) (pump : Pump) (w : Option GoError) (herr : result.err = none) :
    (clientCase fl idx untilTLS st result pump w).effects.take 2 =
      [.print (payloadLine "C" idx (clientOut fl result)), .write .server (clientOut fl result)] := by
  cases w with
  | some e => rw [clientCase_writeErr fl idx untilTLS st result pump e herr]; rfl
  | none =>
    cases hm : (untilTLS && bytesContains (clientOut fl result) clientTLSMarker) with
    | true => rw [clientCase_marker fl idx untilTLS st result pump herr hm]; rfl
    | false => rw [clientCase_plain fl idx untilTLS st result pump herr hm]; rfl

theorem serverCase_take2 (fl : Flags) (idx : Int) (untilTLS : Bool) (st : Loop)
    (result : ReadResult) (pump : Pump) (w : Option GoError) (herr : result.err = none) :
    (serverCase fl idx untilTLS st result pump w).effects.take 2 =
      [.print (payloadLine "S" idx (result.buf.take result.n)),
        .write .client (serverOut fl result)] := by
  cases w with
  | some e => rw [serverCase_writeErr fl idx untilTLS st result pump e herr]; rfl
  | none =>
    cases hm : (untilTLS && bytesContains (serverOut fl result) serverTLSMarker) with
    | true => rw [serverCase_marker fl idx untilTLS st result pump herr hm]; rfl
    | false => rw [serverCase_plain fl idx untilTLS st result pump herr hm]; rfl

/-! ## Lemmas on the loop -/

theorem proxyLoop_cons (fl : Flags) (idx : Int) (untilTLS : Bool) (st : Loop) (c : Ready)
    (cs : List Ready) :
    proxyLoop fl idx untilTLS st (c :: cs) =
      if (proxyIter fl idx untilTLS st c).status = .running then
        ⟨(proxyIter fl idx untilTLS st c).effects ++
            (proxyLoop fl idx untilTLS (proxyIter fl idx untilTLS st c).loop cs).effects,
          (proxyLoop fl idx untilTLS (proxyIter fl idx untilTLS st c).loop cs).loop,
          (proxyLoop fl idx untilTLS (proxyIter fl idx untilTLS st c).loop cs).status⟩
      else proxyIter fl idx untilTLS st c := by
  rcases h : proxyIter fl idx untilTLS st c with ⟨eff, st1, status⟩
  cases status <;> simp [proxyLoop, h]

theorem IOFailure.mono {client server client1 server1 : List ReadResult}
    {sched sched1 : List Ready} {e : GoError} (h : IOFailure client server sched e)
    (hc : ∀ rr ∈ client, rr ∈ client1) (hs : ∀ rr ∈ server, rr ∈ server1)
    (hsched : ∀ c ∈ sched, c ∈ sched1) : IOFailure client1 server1 sched1 e := by
  obtain ⟨cause, h⟩ := h
  refine ⟨cause, ?_⟩
  rcases h with ⟨h1, rr, hrr, h2⟩ | ⟨h1, rr, hrr, h2⟩ | ⟨h1, h2⟩ | ⟨h1, h2⟩
  · exact Or.inl ⟨h1, rr, hc rr hrr, h2⟩
  · exact Or.inr (Or.inl ⟨h1, rr, hs rr hrr, h2⟩)
  · exact Or.inr (Or.inr (Or.inl ⟨h1, hsched _ h2⟩))
  · exact Or.inr (Or.inr (Or.inr ⟨h1, hsched _ h2⟩))

/-- What one iteration of the TLS-intercepted phase preserves. -/
theorem proxyIter_tls (fl : Flags) (idx : Int) (st : Loop) (c : Ready) :
    (proxyIter fl idx false st c).status ≠ .returned none ∧
    (∀ s, Effect.next s false ∉ (proxyIter fl idx false st c).effects) ∧
    (st.client.live = true → (proxyIter fl idx false st c).loop.client.live = true) ∧
    (st.server.live = true → (proxyIter fl idx false st c).loop.server.live = true) ∧
    (∀ rr ∈ (proxyIter fl idx false st c).loop.client.reads, rr ∈ st.client.reads) ∧
    (∀ rr ∈ (proxyIter fl idx false st c).loop.server.reads, rr ∈ st.server.reads) ∧
    (∀ e, (proxyIter fl idx false st c).status = .returned (some e) →
      IOFailure st.client.reads st.server.reads [c] e) := by
  obtain ⟨side, w⟩ := c
  cases side with
  | client =>
    cases hrecv : st.client.recv with
    | none => simp [proxyIter, hrecv]
    | some rp =>
      obtain ⟨result, pump⟩ := rp
      obtain ⟨hst, hp⟩ := recv_pump hrecv
      rw [proxyIter_client fl idx false w hrecv]
      cases herr : result.err with
      | some e =>
        simp only [clientCase, herr, errorsWrap, hst]
        refine ⟨by simp, by simp, by simp [Pump.live, hp], fun h => h,
          fun rr h => by simp [h], by simp, ?_⟩
        intro e1 he1
        simp only [Status.returned.injEq, Option.some.injEq] at he1
        exact ⟨e, Or.inl ⟨he1.symm, result, by simp, herr⟩⟩
      | none =>
        cases w with
        | some e =>
          rw [clientCase_writeErr fl idx false st result pump e herr]
          simp only [hst]
          refine ⟨by simp, by simp, by simp [Pump.live, hp], fun h => h,
          fun rr h => by simp [h], by simp, ?_⟩
          intro e1 he1
          simp only [Status.returned.injEq, Option.some.injEq] at he1
          exact ⟨e, Or.inr (Or.inr (Or.inl ⟨he1.symm, by simp⟩))⟩
        | none =>
          rw [clientCase_plain fl idx false st result pump herr (by simp)]
          simp only [hst]
          refine ⟨by simp, by simp, by simp [Pump.live, Pump.send, hp], fun h => h,
            fun rr h => by simp [Pump.send, hp] at h; simp [h], by simp, by simp⟩
  | server =>
    cases hrecv : st.server.recv with
    | none => simp [proxyIter, hrecv]
    | some rp =>
      obtain ⟨result, pump⟩ := rp
      obtain ⟨hst, hp⟩ := recv_pump hrecv
      rw [proxyIter_server fl idx false w hrecv]
      cases herr : result.err with
      | some e =>
        simp only [serverCase, herr, errorsWrap, hst]
        refine ⟨by simp, by simp, fun h => h, by simp [Pump.live, hp], by simp,
          fun rr h => by simp [h], ?_⟩
        intro e1 he1
        simp only [Status.returned.injEq, Option.some.injEq] at he1
        exact ⟨e, Or.inr (Or.inl ⟨he1.symm, result, by simp, herr⟩)⟩
      | none =>
        cases w with
        | some e =>
          rw [serverCase_writeErr fl idx false st result pump e herr]
          simp only [hst]
          refine ⟨by simp, by simp, fun h => h, by simp [Pump.live, hp], by simp,
          fun rr h => by simp [h], ?_⟩
          intro e1 he1
          simp only [Status.returned.injEq, Option.some.injEq] at he1
          exact ⟨e, Or.inr (Or.inr (Or.inr ⟨he1.symm, by simp⟩))⟩
        | none =>
          rw [serverCase_plain fl idx false st result pump herr (by simp)]
          simp only [hst]
          refine ⟨by simp, by simp, fun h => h, by simp [Pump.live, Pump.send, hp],
            by simp, fun rr h => by simp [Pump.send, hp] at h; simp [h], by simp⟩

/-- What the loop of the TLS-intercepted phase preserves along a schedule. -/
theorem proxyLoop_tls (fl : Flags) (idx : Int) (sched : List Ready) :
    ∀ st : Loop,
      (proxyLoop fl idx false st sched).status ≠ .returned none ∧
      (∀ s, Effect.next s false ∉ (proxyLoop fl idx false st sched).effects) ∧
      (st.client.live = true → (proxyLoop fl idx false st sched).loop.client.live = true) ∧
      (st.server.live = true → (proxyLoop fl idx false st sched).loop.server.live = true) ∧
      (∀ rr ∈ (proxyLoop fl idx false st sched).loop.client.reads, rr ∈ st.client.reads) ∧
      (∀ rr ∈ (proxyLoop fl idx false st sched).loop.server.reads, rr ∈ st.server.reads) ∧
      (∀ e, (proxyLoop fl idx false st sched).status = .returned (some e) →
        IOFailure st.client.reads st.server.reads sched e) := by
  induction sched with
  | nil =>
    intro st
    simp [proxyLoop]
  | cons c cs ih =>
    intro st
    obtain ⟨h1, h2, h3, h4, h5, h6, h7⟩ := proxyIter_tls fl idx st c
    rw [proxyLoop_cons]
    by_cases hrun : (proxyIter fl idx false st c).status = .running
    · obtain ⟨i1, i2, i3, i4, i5, i6, i7⟩ := ih (proxyIter fl idx false st c).loop
      simp only [hrun, if_true]
      refine ⟨i1, ?_, fun h => i3 (h3 h), fun h => i4 (h4 h), fun rr h => h5 rr (i5 rr h),
        fun rr h => h6 rr (i6 rr h), ?_⟩
      · intro s hmem
        rcases List.mem_append.mp hmem with h | h
        · exact h2 s h
        · exact i2 s h
      · intro e he
        exact (i7 e he).mono h5 h6 (fun x hx => List.mem_cons_of_mem _ hx)
    · simp only [hrun, if_false]
      refine ⟨h1, h2, h3, h4, h5, h6, ?_⟩
      intro e he
      exact (h7 e he).mono (fun _ h => h) (fun _ h => h) (fun x hx => by
        rw [List.mem_singleton] at hx
        subst hx
        exact List.mem_cons_self _ _)

theorem payloadLine_head (tag : String) (idx : Int) (b : List Byte) :
    payloadLine tag idx b = strBytes tag ++ (fmtInt idx ++ strBytes "|" ++ escape b ++ strBytes "|\n") := by
  simp [payloadLine]

theorem noticeLine_head (idx : Int) (what : String) :
    noticeLine idx what = strBytes "X" ++ (fmtInt idx ++ strBytes ": " ++ strBytes what ++ strBytes "\n") := by
  simp [noticeLine]

theorem payloadLine_S_ne_C (idx : Int) (a b : List Byte) :
    payloadLine "S" idx a ≠ payloadLine "C" idx b := by
  rw [payloadLine_head, payloadLine_head]
  have h1 : strBytes "S" = [83] := by decide
  have h2 : strBytes "C" = [67] := by decide
  rw [h1, h2]
  intro h
  simp only [List.singleton_append, List.cons.injEq] at h
  exact absurd h.1 (by decide)

theorem payloadLine_S_ne_notice (idx : Int) (a : List Byte) (what : String) :
    payloadLine "S" idx a ≠ noticeLine idx what := by
  rw [payloadLine_head, noticeLine_head]
  have h1 : strBytes "S" = [83] := by decide
  have h2 : strBytes "X" = [88] := by decide
  rw [h1, h2]
  intro h
  simp only [List.singleton_append, List.cons.injEq] at h
  exact absurd h.1 (by decide)

theorem notice_ne_payloadLine_C (idx : Int) (b : List Byte) (what : String) :
    noticeLine idx what ≠ payloadLine "C" idx b := by
  rw [payloadLine_head, noticeLine_head]
  have h1 : strBytes "C" = [67] := by decide
  have h2 : strBytes "X" = [88] := by decide
  rw [h1, h2]
  intro h
  simp only [List.singleton_append, List.cons.injEq] at h
  exact absurd h.1 (by decide)

theorem notice_server_ne_client (idx : Int) :
    noticeLine idx "server goes TLS" ≠ noticeLine idx "client goes TLS" := by
  intro h
  simp only [noticeLine, List.append_assoc, List.append_cancel_left_eq] at h
  exact absurd h (by decide)

/-- Once the client pump has returned, an iteration leaves it as it is and
does nothing that belongs to the client case. -/
theorem proxyIter_client_terminated (fl : Flags) (idx : Int) (untilTLS : Bool) (st : Loop)
    (c : Ready) (hterm : st.client.state = .terminated) :
    (proxyIter fl idx untilTLS st c).loop.client = st.client ∧
    ∀ e ∈ (proxyIter fl idx untilTLS st c).effects, NotClientCase idx e := by
  obtain ⟨side, w⟩ := c
  cases side with
  | client =>
    have hrecv : st.client.recv = none := by simp [Pump.recv, hterm]
    simp [proxyIter, hrecv]
  | server =>
    cases hrecv : st.server.recv with
    | none => simp [proxyIter, hrecv]
    | some rp =>
      obtain ⟨result, pump⟩ := rp
      rw [proxyIter_server fl idx untilTLS w hrecv]
      have hS : ∀ a, NotClientCase idx (.print (payloadLine "S" idx a)) := fun a =>
        ⟨fun b h => payloadLine_S_ne_C idx a b (Effect.print.inj h), fun b h => (by cases h),
          fun h => payloadLine_S_ne_notice idx a _ (Effect.print.inj h), fun m h => (by cases h)⟩
      have hW : ∀ a, NotClientCase idx (.write .client a) := fun a =>
        ⟨fun b h => (by cases h), fun b h => (by cases h), fun h => (by cases h), fun m h => (by cases h)⟩
      have hN : NotClientCase idx (.print (noticeLine idx "server goes TLS")) :=
        ⟨fun b h => notice_ne_payloadLine_C idx b _ (Effect.print.inj h), fun b h => (by cases h),
          fun h => notice_server_ne_client idx (Effect.print.inj h), fun m h => (by cases h)⟩
      have hX : ∀ m, NotClientCase idx (.next .server m) := fun a =>
        ⟨fun b h => (by cases h), fun b h => (by cases h), fun h => (by cases h), fun m h => (by cases h)⟩
      cases herr : result.err with
      | some e => simp [serverCase, herr]
      | none =>
        cases w with
        | some e =>
          rw [serverCase_writeErr fl idx untilTLS st result pump e herr]
          simp [hS, hW]
        | none =>
          cases hm : (untilTLS && bytesContains (serverOut fl result) serverTLSMarker) with
          | true =>
            rw [serverCase_marker fl idx untilTLS st result pump herr hm]
            simp [hS, hW, hN, hX]
          | false =>
            rw [serverCase_plain fl idx untilTLS st result pump herr hm]
            simp [hS, hW, hX]

theorem proxyLoop_client_terminated (fl : Flags) (idx : Int) (untilTLS : Bool)
    (sched : List Ready) :
    ∀ st : Loop, st.client.state = .terminated →
      (proxyLoop fl idx untilTLS st sched).loop.client = st.client ∧
      ∀ e ∈ (proxyLoop fl idx untilTLS st sched).effects, NotClientCase idx e := by
  induction sched with
  | nil =>
    intro st _
    simp [proxyLoop]
  | cons c cs ih =>
    intro st hterm
    obtain ⟨h1, h2⟩ := proxyIter_client_terminated fl idx untilTLS st c hterm
    rw [proxyLoop_cons]
    by_cases hrun : (proxyIter fl idx untilTLS st c).status = .running
    · obtain ⟨i1, i2⟩ := ih (proxyIter fl idx untilTLS st c).loop (by rw [h1]; exact hterm)
      simp only [hrun, if_true]
      refine ⟨i1.trans h1, ?_⟩
      intro e hmem
      rcases List.mem_append.mp hmem with h | h
      · exact h2 e h
      · exact i2 e h
    · simp only [hrun, if_false]
      exact ⟨h1, h2⟩

theorem payloadLine_C_ne_notice (idx : Int) (a : List Byte) (what : String) :
    payloadLine "C" idx a ≠ noticeLine idx what :=
  fun h => notice_ne_payloadLine_C idx a what h.symm

/-- One iteration prints the notice "client goes TLS" at most once, and when
it does the client pump has returned. -/
theorem proxyIter_notice_count (fl : Flags) (idx : Int) (untilTLS : Bool) (st : Loop) (c : Ready) :
    (Effect.print (noticeLine idx "client goes TLS") ∉ (proxyIter fl idx untilTLS st c).effects) ∨
    ((proxyIter fl idx untilTLS st c).effects.count (.print (noticeLine idx "client goes TLS")) = 1 ∧
      (proxyIter fl idx untilTLS st c).loop.client.state = .terminated) := by
  obtain ⟨side, w⟩ := c
  cases side with
  | client =>
    cases hrecv : st.client.recv with
    | none => simp [proxyIter, hrecv]
    | some rp =>
      obtain ⟨result, pump⟩ := rp
      rw [proxyIter_client fl idx untilTLS w hrecv]
      have hC := (payloadLine_C_ne_notice idx (clientOut fl result) "client goes TLS").symm
      cases herr : result.err with
      | some e => simp [clientCase, herr]
      | none =>
        cases w with
        | some e =>
          rw [clientCase_writeErr fl idx untilTLS st result pump e herr]
          simp [hC]
        | none =>
          cases hm : (untilTLS && bytesContains (clientOut fl result) clientTLSMarker) with
          | true =>
            rw [clientCase_marker fl idx untilTLS st result pump herr hm]
            right
            simp [List.count_cons, hC, Pump.send, (recv_pump hrecv).2]
          | false =>
            rw [clientCase_plain fl idx untilTLS st result pump herr hm]
            simp [hC]
  | server =>
    left
    cases hrecv : st.server.recv with
    | none => simp [proxyIter, hrecv]
    | some rp =>
      obtain ⟨result, pump⟩ := rp
      rw [proxyIter_server fl idx untilTLS w hrecv]
      have hS := (payloadLine_S_ne_notice idx (result.buf.take result.n) "client goes TLS").symm
      have hN := (notice_server_ne_client idx).symm
      cases herr : result.err with
      | some e => simp [serverCase, herr]
      | none =>
        cases w with
        | some e =>
          rw [serverCase_writeErr fl idx untilTLS st result pump e herr]
          simp [hS]
        | none =>
          cases hm : (untilTLS && bytesContains (serverOut fl result) serverTLSMarker) with
          | true =>
            rw [serverCase_marker fl idx untilTLS st result pump herr hm]
            simp [hS, hN]
          | false =>
            rw [serverCase_plain fl idx untilTLS st result pump herr hm]
            simp [hS]

theorem proxyLoop_notice_count (fl : Flags) (idx : Int) (untilTLS : Bool) (sched : List Ready) :
    ∀ st : Loop,
      (proxyLoop fl idx untilTLS st sched).effects.count
        (.print (noticeLine idx "client goes TLS")) ≤ 1 := by
  induction sched with
  | nil =>
    intro st
    simp [proxyLoop]
  | cons c cs ih =>
    intro st
    rw [proxyLoop_cons]
    by_cases hrun : (proxyIter fl idx untilTLS st c).status = .running
    · simp only [hrun, if_true, List.count_append]
      rcases proxyIter_notice_count fl idx untilTLS st c with h | ⟨h1, h2⟩
      · rw [List.count_eq_zero_of_not_mem h, Nat.zero_add]
        exact ih _
      · have hrest := (proxyLoop_client_terminated fl idx untilTLS cs
          (proxyIter fl idx untilTLS st c).loop h2).2
        have hnot : Effect.print (noticeLine idx "client goes TLS") ∉
            (proxyLoop fl idx untilTLS (proxyIter fl idx untilTLS st c).loop cs).effects :=
          fun hmem => (hrest _ hmem).2.2.1 rfl
        rw [h1, List.count_eq_zero_of_not_mem hnot]
    · simp only [hrun, if_false]
      rcases proxyIter_notice_count fl idx untilTLS st c with h | ⟨h1, _⟩
      · rw [List.count_eq_zero_of_not_mem h]
        exact Nat.zero_le _
      · rw [h1]

/-! ## The claims -/

/-- C10: a read outcome whose error field is set, on either side and whatever
its byte count, makes the iteration return the read error wrapped with
"failed to read from client" / "failed to read from server" with no effect at
all (nothing printed, nothing written, no answer to a pump); the loop has
returned, so whatever the schedule holds after that outcome, nothing more
happens. -/
theorem read_error_returns_at_once (fl : Flags) (idx : Int) (untilTLS : Bool) (st : Loop)
    (result : ReadResult) (pump : Pump) (w : Option GoError) (e : GoError) (cs : List Ready)
    (herr : result.err = some e) :
    (st.client.recv = some (result, pump) →
      proxyIter fl idx untilTLS st ⟨.client, w⟩ =
          ⟨[], ⟨pump, st.server⟩, .returned (some (.wrapped e "failed to read from client"))⟩ ∧
        proxyLoop fl idx untilTLS st (⟨.client, w⟩ :: cs) =
          ⟨[], ⟨pump, st.server⟩, .returned (some (.wrapped e "failed to read from client"))⟩) ∧
    (st.server.recv = some (result, pump) →
      proxyIter fl idx untilTLS st ⟨.server, w⟩ =
          ⟨[], ⟨st.client, pump⟩, .returned (some (.wrapped e "failed to read from server"))⟩ ∧
        proxyLoop fl idx untilTLS st (⟨.server, w⟩ :: cs) =
          ⟨[], ⟨st.client, pump⟩, .returned (some (.wrapped e "failed to read from server"))⟩) := by
  constructor
  · intro h
    have h1 := proxyIter_client fl idx untilTLS w h
    simp only [clientCase, herr, errorsWrap] at h1
    exact ⟨h1, by simp [proxyLoop, h1]⟩
  · intro h
    have h1 := proxyIter_server fl idx untilTLS w h
    simp only [serverCase, herr, errorsWrap] at h1
    exact ⟨h1, by simp [proxyLoop, h1]⟩

theorem read_error_returns_at_once_witness :
    (⟨3, some (.base "EOF"), strBytes "abc"⟩ : ReadResult).err = some (.base "EOF") ∧
    (⟨startReader [⟨3, some (.base "EOF"), strBytes "abc"⟩], startReader []⟩ : Loop).client.recv =
      some (⟨3, some (.base "EOF"), strBytes "abc"⟩, ⟨[], .awaiting⟩) ∧
    proxyLoop ⟨[], []⟩ 1 true ⟨startReader [⟨3, some (.base "EOF"), strBytes "abc"⟩], startReader []⟩
        [⟨.client, none⟩, ⟨.server, none⟩] =
      ⟨[], ⟨⟨[], .awaiting⟩, startReader []⟩,
        .returned (some (.wrapped (.base "EOF") "failed to read from client"))⟩ :=
  ⟨rfl, rfl,
    ((read_error_returns_at_once ⟨[], []⟩ 1 true
      ⟨startReader [⟨3, some (.base "EOF"), strBytes "abc"⟩], startReader []⟩
      ⟨3, some (.base "EOF"), strBytes "abc"⟩ ⟨[], .awaiting⟩ none (.base "EOF")
      [⟨.server, none⟩] rfl).1 rfl).2⟩

/-- C6: when the local or the remote literal is empty, every error-free read
outcome, on either side and in either phase, is handed to `Write` on the
opposite connection as exactly the slice `buf[:n]` that was read, and nothing
else is written. -/
theorem no_substitution_passes_through (fl : Flags) (idx : Int) (untilTLS : Bool) (st : Loop)
    (result : ReadResult) (pump : Pump) (w : Option GoError)
    (hoff : fl.flReplaceLocal = [] ∨ fl.flReplaceRemote = []) (herr : result.err = none) :
    (st.client.recv = some (result, pump) →
      writesTo .server (proxyIter fl idx untilTLS st ⟨.client, w⟩).effects =
          [result.buf.take result.n] ∧
        writesTo .client (proxyIter fl idx untilTLS st ⟨.client, w⟩).effects = []) ∧
    (st.server.recv = some (result, pump) →
      writesTo .client (proxyIter fl idx untilTLS st ⟨.server, w⟩).effects =
          [result.buf.take result.n] ∧
        writesTo .server (proxyIter fl idx untilTLS st ⟨.server, w⟩).effects = []) := by
  have hoff1 := replaceActive_eq_false hoff
  constructor
  · intro h
    rw [proxyIter_client fl idx untilTLS w h]
    cases w <;> simp only [clientCase, herr, hoff1, Bool.false_eq_true, if_false]
    · split <;> simp [writesTo]
    · simp [writesTo]
  · intro h
    rw [proxyIter_server fl idx untilTLS w h]
    cases w <;> simp only [serverCase, herr, hoff1, Bool.false_eq_true, if_false]
    · split <;> simp [writesTo]
    · simp [writesTo]

theorem no_substitution_passes_through_witness :
    ((⟨[], strBytes "x"⟩ : Flags).flReplaceLocal = [] ∨
      (⟨[], strBytes "x"⟩ : Flags).flReplaceRemote = []) ∧
    (⟨2, none, strBytes "xyz"⟩ : ReadResult).err = none ∧
    (⟨startReader [], startReader [⟨2, none, strBytes "xyz"⟩]⟩ : Loop).server.recv =
      some (⟨2, none, strBytes "xyz"⟩, ⟨[], .awaiting⟩) ∧
    writesTo .client (proxyIter ⟨[], strBytes "x"⟩ 1 false
      ⟨startReader [], startReader [⟨2, none, strBytes "xyz"⟩]⟩ ⟨.server, none⟩).effects =
        [strBytes "xy"] :=
  ⟨Or.inl rfl, rfl, rfl,
    ((no_substitution_passes_through ⟨[], strBytes "x"⟩ 1 false
      ⟨startReader [], startReader [⟨2, none, strBytes "xyz"⟩]⟩
      ⟨2, none, strBytes "xyz"⟩ ⟨[], .awaiting⟩ none (Or.inl rfl) rfl).2 rfl).1⟩

/-- C2: with both literals non-empty, the slice handed to `Write` on the server
connection for an error-free client outcome is the slice read with every
non-overlapping occurrence of the local literal replaced by the remote literal
and nothing else altered, and the slice handed to `Write` on the client
connection for an error-free server outcome is the slice read with every
non-overlapping occurrence of the remote literal replaced by the local one;
in both cases it is the only slice that is so related to the slice read. -/
theorem substitution_replaces_every_occurrence (fl : Flags) (idx : Int) (untilTLS : Bool)
    (st : Loop) (result : ReadResult) (pump : Pump) (w : Option GoError)
    (hL : fl.flReplaceLocal ≠ []) (hR : fl.flReplaceRemote ≠ []) (herr : result.err = none) :
    (st.client.recv = some (result, pump) →
      ∃ out, writesTo .server (proxyIter fl idx untilTLS st ⟨.client, w⟩).effects = [out] ∧
        ReplacedEvery fl.flReplaceLocal fl.flReplaceRemote (result.buf.take result.n) out ∧
        ∀ q, ReplacedEvery fl.flReplaceLocal fl.flReplaceRemote (result.buf.take result.n) q →
          q = out) ∧
    (st.server.recv = some (result, pump) →
      ∃ out, writesTo .client (proxyIter fl idx untilTLS st ⟨.server, w⟩).effects = [out] ∧
        ReplacedEvery fl.flReplaceRemote fl.flReplaceLocal (result.buf.take result.n) out ∧
        ∀ q, ReplacedEvery fl.flReplaceRemote fl.flReplaceLocal (result.buf.take result.n) q →
          q = out) := by
  have hon := replaceActive_eq_true hL hR
  constructor
  · intro h
    have hspec := bytesReplace_replacedEvery fl.flReplaceLocal fl.flReplaceRemote hL _
      (result.buf.take result.n) (Nat.le_refl _)
    refine ⟨bytesReplace (result.buf.take result.n) fl.flReplaceLocal fl.flReplaceRemote, ?_,
      hspec, fun q hq => hq.unique hspec⟩
    rw [proxyIter_client fl idx untilTLS w h]
    cases w <;> simp only [clientCase, herr, hon, if_true]
    · split <;> simp [writesTo]
    · simp [writesTo]
  · intro h
    have hspec := bytesReplace_replacedEvery fl.flReplaceRemote fl.flReplaceLocal hR _
      (result.buf.take result.n) (Nat.le_refl _)
    refine ⟨bytesReplace (result.buf.take result.n) fl.flReplaceRemote fl.flReplaceLocal, ?_,
      hspec, fun q hq => hq.unique hspec⟩
    rw [proxyIter_server fl idx untilTLS w h]
    cases w <;> simp only [serverCase, herr, hon, if_true]
    · split <;> simp [writesTo]
    · simp [writesTo]

theorem substitution_replaces_every_occurrence_witness :
    (⟨strBytes "ab", strBytes "xyz"⟩ : Flags).flReplaceLocal ≠ [] ∧
    (⟨strBytes "ab", strBytes "xyz"⟩ : Flags).flReplaceRemote ≠ [] ∧
    (⟨5, none, strBytes "aababZZ"⟩ : ReadResult).err = none ∧
    (⟨startReader [⟨5, none, strBytes "aababZZ"⟩], startReader []⟩ : Loop).client.recv =
      some (⟨5, none, strBytes "aababZZ"⟩, ⟨[], .awaiting⟩) ∧
    writesTo .server (proxyIter ⟨strBytes "ab", strBytes "xyz"⟩ 1 true
        ⟨startReader [⟨5, none, strBytes "aababZZ"⟩], startReader []⟩ ⟨.client, none⟩).effects =
      [strBytes "axyzxyz"] ∧
    ∃ out, writesTo .server (proxyIter ⟨strBytes "ab", strBytes "xyz"⟩ 1 true
        ⟨startReader [⟨5, none, strBytes "aababZZ"⟩], startReader []⟩ ⟨.client, none⟩).effects =
          [out] ∧
      ReplacedEvery (strBytes "ab") (strBytes "xyz") ((strBytes "aababZZ").take 5) out ∧
      ∀ q, ReplacedEvery (strBytes "ab") (strBytes "xyz") ((strBytes "aababZZ").take 5) q →
        q = out :=
  ⟨by decide, by decide, rfl, rfl, by decide,
    (substitution_replaces_every_occurrence ⟨strBytes "ab", strBytes "xyz"⟩ 1 true
      ⟨startReader [⟨5, none, strBytes "aababZZ"⟩], startReader []⟩
      ⟨5, none, strBytes "aababZZ"⟩ ⟨[], .awaiting⟩ none (by decide) (by decide) rfl).1 rfl⟩

/-- C7: for an error-free outcome, the line printed for the client direction
carries the escape of the slice after the local -> remote substitution, which
is the slice then written to the server; the line printed for the server direction
carries the escape of the slice as read, and the slice written to the client is
that slice after the remote -> local substitution, so that the two can differ. -/
theorem logged_payloads (fl : Flags) (idx : Int) (untilTLS : Bool) (st : Loop)
    (result : ReadResult) (pump : Pump) (w : Option GoError) (herr : result.err = none) :
    (st.client.recv = some (result, pump) →
      ∃ out,
        out = (if replaceActive fl then
            bytesReplace (result.buf.take result.n) fl.flReplaceLocal fl.flReplaceRemote
          else result.buf.take result.n) ∧
        (proxyIter fl idx untilTLS st ⟨.client, w⟩).effects.take 2 =
          [.print (strBytes "C" ++ fmtInt idx ++ strBytes "|" ++ escape out ++ strBytes "|\n"),
            .write .server out]) ∧
    (st.server.recv = some (result, pump) →
      ∃ out,
        out = (if replaceActive fl then
            bytesReplace (result.buf.take result.n) fl.flReplaceRemote fl.flReplaceLocal
          else result.buf.take result.n) ∧
        (proxyIter fl idx untilTLS st ⟨.server, w⟩).effects.take 2 =
          [.print (strBytes "S" ++ fmtInt idx ++ strBytes "|" ++
              escape (result.buf.take result.n) ++ strBytes "|\n"),
            .write .client out]) ∧
    (∃ (fl1 : Flags) (r1 : ReadResult), r1.err = none ∧
      (proxyIter fl1 idx untilTLS ⟨startReader [], startReader [r1]⟩ ⟨.server, w⟩).effects.take 2 =
        [.print (strBytes "S" ++ fmtInt idx ++ strBytes "|" ++ strBytes "<proceed" ++
            strBytes "|\n"),
          .write .client (strBytes "x")]) := by
  refine ⟨?_, ?_, ?_⟩
  · intro h
    refine ⟨_, rfl, ?_⟩
    rw [proxyIter_client fl idx untilTLS w h]
    exact clientCase_take2 fl idx untilTLS st result pump w herr
  · intro h
    refine ⟨_, rfl, ?_⟩
    rw [proxyIter_server fl idx untilTLS w h]
    exact serverCase_take2 fl idx untilTLS st result pump w herr
  · refine ⟨⟨strBytes "x", strBytes "<proceed"⟩, ⟨8, none, strBytes "<proceed"⟩, rfl, ?_⟩
    have hrecv : (⟨startReader [], startReader [⟨8, none, strBytes "<proceed"⟩]⟩ : Loop).server.recv
        = some (⟨8, none, strBytes "<proceed"⟩, ⟨[], .awaiting⟩) := rfl
    have hout : serverOut ⟨strBytes "x", strBytes "<proceed"⟩ ⟨8, none, strBytes "<proceed"⟩ =
        strBytes "x" := by decide
    have hesc : escape (List.take 8 (strBytes "<proceed")) = strBytes "<proceed" := by decide
    rw [proxyIter_server _ idx untilTLS w hrecv, serverCase_take2 _ _ _ _ _ _ _ rfl, hout]
    simp only [payloadLine, hesc]

theorem logged_payloads_witness :
    (⟨8, none, strBytes "<proceed"⟩ : ReadResult).err = none ∧
    (⟨startReader [], startReader [⟨8, none, strBytes "<proceed"⟩]⟩ : Loop).server.recv =
      some (⟨8, none, strBytes "<proceed"⟩, ⟨[], .awaiting⟩) ∧
    ∃ out,
      out = strBytes "x" ∧
      (proxyIter ⟨strBytes "x", strBytes "<proceed"⟩ 7 true
        ⟨startReader [], startReader [⟨8, none, strBytes "<proceed"⟩]⟩ ⟨.server, none⟩).effects.take 2 =
        [.print (strBytes "S7|<proceed|\n"), .write .client out] :=
  ⟨rfl, rfl,
    (logged_payloads ⟨strBytes "x", strBytes "<proceed"⟩ 7 true
      ⟨startReader [], startReader [⟨8, none, strBytes "<proceed"⟩]⟩
      ⟨8, none, strBytes "<proceed"⟩ ⟨[], .awaiting⟩ none rfl).2.1 rfl⟩

/-- C1, as stated, fails: with local literal `x` and remote literal `<proceed`,
a server outcome `<proceed` whose write succeeds contains the server marker as
read, yet the plaintext loop prints it, writes `x` to the client, answers the
server pump with true and keeps running, so "stops the pump and returns
success" is not equivalent to "the slice as read contains the marker". -/
theorem server_marker_before_substitution_counterexample :
    (⟨startReader [], startReader [⟨8, none, strBytes "<proceed"⟩]⟩ : Loop).server.recv =
      some (⟨8, none, strBytes "<proceed"⟩, ⟨[], .awaiting⟩) ∧
    (⟨8, none, strBytes "<proceed"⟩ : ReadResult).err = none ∧
    proxyIter ⟨strBytes "x", strBytes "<proceed"⟩ 1 true
        ⟨startReader [], startReader [⟨8, none, strBytes "<proceed"⟩]⟩ ⟨.server, none⟩ =
      ⟨[.print (strBytes "S1|<proceed|\n"), .write .client (strBytes "x"), .next .server true],
        ⟨startReader [], startReader []⟩, .running⟩ ∧
    ¬ ((Effect.next .server false ∈ (proxyIter ⟨strBytes "x", strBytes "<proceed"⟩ 1 true
            ⟨startReader [], startReader [⟨8, none, strBytes "<proceed"⟩]⟩
            ⟨.server, none⟩).effects ∧
        (proxyIter ⟨strBytes "x", strBytes "<proceed"⟩ 1 true
            ⟨startReader [], startReader [⟨8, none, strBytes "<proceed"⟩]⟩
            ⟨.server, none⟩).status = .returned none) ↔
      bytesContains ((⟨8, none, strBytes "<proceed"⟩ : ReadResult).buf.take 8)
        serverTLSMarker = true) := by
  decide

/-- C1, amended: in the plaintext phase, for every substitution configuration
and every error-free server outcome whose write to the client succeeds, the
loop answers the server pump with false (which ends that pump) and returns
success if and only if the slice after the remote -> local substitution, that
is the slice written to the client, contains the server marker. -/
theorem server_marker_checked_after_substitution (fl : Flags) (idx : Int) (st : Loop)
    (result : ReadResult) (pump : Pump) (hrecv : st.server.recv = some (result, pump))
    (herr : result.err = none) :
    ∃ out,
      out = (if replaceActive fl then
          bytesReplace (result.buf.take result.n) fl.flReplaceRemote fl.flReplaceLocal
        else result.buf.take result.n) ∧
      writesTo .client (proxyIter fl idx true st ⟨.server, none⟩).effects = [out] ∧
      ((Effect.next .server false ∈ (proxyIter fl idx true st ⟨.server, none⟩).effects ∧
          (proxyIter fl idx true st ⟨.server, none⟩).loop.server.state = .terminated ∧
          (proxyIter fl idx true st ⟨.server, none⟩).status = .returned none) ↔
        bytesContains out serverTLSMarker = true) := by
  refine ⟨serverOut fl result, rfl, ?_⟩
  rw [proxyIter_server fl idx true none hrecv]
  cases hm : bytesContains (serverOut fl result) serverTLSMarker with
  | true =>
    rw [serverCase_marker fl idx true st result pump herr (by simp [hm])]
    have hp := (recv_pump hrecv).2
    simp [writesTo, Pump.send, hp]
  | false =>
    rw [serverCase_plain fl idx true st result pump herr (by simp [hm])]
    simp [writesTo]

theorem server_marker_checked_after_substitution_witness :
    (⟨startReader [], startReader [⟨1, none, strBytes "x"⟩]⟩ : Loop).server.recv =
      some (⟨1, none, strBytes "x"⟩, ⟨[], .awaiting⟩) ∧
    (⟨1, none, strBytes "x"⟩ : ReadResult).err = none ∧
    ∃ out,
      out = strBytes "<proceed" ∧
      writesTo .client (proxyIter ⟨strBytes "<proceed", strBytes "x"⟩ 1 true
        ⟨startReader [], startReader [⟨1, none, strBytes "x"⟩]⟩ ⟨.server, none⟩).effects = [out] ∧
      ((Effect.next .server false ∈ (proxyIter ⟨strBytes "<proceed", strBytes "x"⟩ 1 true
            ⟨startReader [], startReader [⟨1, none, strBytes "x"⟩]⟩ ⟨.server, none⟩).effects ∧
          (proxyIter ⟨strBytes "<proceed", strBytes "x"⟩ 1 true
            ⟨startReader [], startReader [⟨1, none, strBytes "x"⟩]⟩
            ⟨.server, none⟩).loop.server.state = .terminated ∧
          (proxyIter ⟨strBytes "<proceed", strBytes "x"⟩ 1 true
            ⟨startReader [], startReader [⟨1, none, strBytes "x"⟩]⟩ ⟨.server, none⟩).status =
              .returned none) ↔
        bytesContains out serverTLSMarker = true) :=
  ⟨rfl, rfl,
    server_marker_checked_after_substitution ⟨strBytes "<proceed", strBytes "x"⟩ 1
      ⟨startReader [], startReader [⟨1, none, strBytes "x"⟩]⟩ ⟨1, none, strBytes "x"⟩
      ⟨[], .awaiting⟩ rfl rfl⟩

/-- C8: `escape s` is `s` with each backslash turned into two backslashes, each
newline turned into a backslash followed by `n`, and every other byte kept; it
contains no newline, so each payload line `C<id>|escape(s)|\n` and
`S<id>|escape(s)|\n` is a newline-free text followed by one newline: it holds
exactly one newline, at its end. -/
theorem escape_keeps_payload_on_one_line (s : List Byte) (idx : Int) :
    escape s = s.flatMap escapeByteSpec ∧
    (10 : Byte) ∉ escape s ∧
    (payloadLine "C" idx s =
        (strBytes "C" ++ fmtInt idx ++ strBytes "|" ++ escape s ++ strBytes "|") ++ [10] ∧
      (10 : Byte) ∉ strBytes "C" ++ fmtInt idx ++ strBytes "|" ++ escape s ++ strBytes "|" ∧
      (payloadLine "C" idx s).count 10 = 1) ∧
    (payloadLine "S" idx s =
        (strBytes "S" ++ fmtInt idx ++ strBytes "|" ++ escape s ++ strBytes "|") ++ [10] ∧
      (10 : Byte) ∉ strBytes "S" ++ fmtInt idx ++ strBytes "|" ++ escape s ++ strBytes "|" ∧
      (payloadLine "S" idx s).count 10 = 1) := by
  have hbar : strBytes "|" = [124] := by decide
  have hend : strBytes "|\n" = [124, 10] := by decide
  have hC : strBytes "C" = [67] := by decide
  have hS : strBytes "S" = [83] := by decide
  have h1 := newline_not_mem_escape s
  have h2 := newline_not_mem_fmtInt idx
  have hbodyC : (10 : Byte) ∉
      strBytes "C" ++ fmtInt idx ++ strBytes "|" ++ escape s ++ strBytes "|" := by
    simp only [hbar, hC, List.mem_append, List.mem_singleton, not_or]
    exact ⟨⟨⟨⟨by decide, h2⟩, by decide⟩, h1⟩, by decide⟩
  have hbodyS : (10 : Byte) ∉
      strBytes "S" ++ fmtInt idx ++ strBytes "|" ++ escape s ++ strBytes "|" := by
    simp only [hbar, hS, List.mem_append, List.mem_singleton, not_or]
    exact ⟨⟨⟨⟨by decide, h2⟩, by decide⟩, h1⟩, by decide⟩
  have hlineC : payloadLine "C" idx s =
      (strBytes "C" ++ fmtInt idx ++ strBytes "|" ++ escape s ++ strBytes "|") ++ [10] := by
    simp [payloadLine, hbar, hend]
  have hlineS : payloadLine "S" idx s =
      (strBytes "S" ++ fmtInt idx ++ strBytes "|" ++ escape s ++ strBytes "|") ++ [10] := by
    simp [payloadLine, hbar, hend]
  refine ⟨escape_eq_flatMap s, h1, ⟨hlineC, hbodyC, ?_⟩, ⟨hlineS, hbodyS, ?_⟩⟩
  · rw [hlineC, List.count_append, List.count_eq_zero_of_not_mem hbodyC]
    simp
  · rw [hlineS, List.count_append, List.count_eq_zero_of_not_mem hbodyS]
    simp

/-- C5: `serve` runs the TLS-intercepted phase (a call of `proxy` with
`untilTLS = false` on the TLS connections) exactly when the dial succeeded and
the plaintext call of `proxy` returned success; an error returned by the
plaintext phase makes `serve` return it wrapped with "session terminated"
without running the TLS phase, and an error returned by the TLS phase is
returned wrapped with "TLS session terminated". -/
theorem serve_runs_tls_phase_only_after_success (fl : Flags) (net : Net) (idx : Int) :
    ((serve fl net idx).tls.isSome = true ↔
      (net.dial = none ∧
        (proxy fl net.client net.server idx true net.plainSched).status = .returned none)) ∧
    (∀ e, net.dial = none →
      (proxy fl net.client net.server idx true net.plainSched).status = .returned (some e) →
      (serve fl net idx).status = .returned (some (.wrapped e "session terminated")) ∧
        (serve fl net idx).tls = none) ∧
    (∀ e, net.dial = none →
      (proxy fl net.client net.server idx true net.plainSched).status = .returned none →
      (proxy fl net.tlsClient net.tlsServer idx false net.tlsSched).status = .returned (some e) →
      (serve fl net idx).tls = some (proxy fl net.tlsClient net.tlsServer idx false net.tlsSched) ∧
        (serve fl net idx).status = .returned (some (.wrapped e "TLS session terminated"))) := by
  refine ⟨?_, ?_, ?_⟩
  · unfold serve
    cases hd : net.dial with
    | some err => simp
    | none =>
      simp only []
      cases hp : (proxy fl net.client net.server idx true net.plainSched).status with
      | running => simp
      | returned err =>
        cases err with
        | some err => simp
        | none =>
          simp only []
          cases (proxy fl net.tlsClient net.tlsServer idx false net.tlsSched).status <;> simp
  · intro e hd hp
    simp [serve, hd, hp, errorsWrap]
  · intro e hd hp hp2
    simp [serve, hd, hp, hp2, errorsWrap]

theorem serve_runs_tls_phase_only_after_success_witness :
    (⟨none, [⟨0, some (.base "EOF"), []⟩], [], [], [], [⟨.client, none⟩], []⟩ : Net).dial = none ∧
    (proxy ⟨[], []⟩ [⟨0, some (.base "EOF"), []⟩] [] 1 true [⟨.client, none⟩]).status =
      .returned (some (.wrapped (.base "EOF") "failed to read from client")) ∧
    (serve ⟨[], []⟩ ⟨none, [⟨0, some (.base "EOF"), []⟩], [], [], [], [⟨.client, none⟩], []⟩ 1).status =
        .returned (some (.wrapped (.wrapped (.base "EOF") "failed to read from client")
          "session terminated")) ∧
      (serve ⟨[], []⟩ ⟨none, [⟨0, some (.base "EOF"), []⟩], [], [], [], [⟨.client, none⟩], []⟩ 1).tls =
        none :=
  ⟨rfl, rfl,
    (serve_runs_tls_phase_only_after_success ⟨[], []⟩
      ⟨none, [⟨0, some (.base "EOF"), []⟩], [], [], [], [⟨.client, none⟩], []⟩ 1).2.1
      (.wrapped (.base "EOF") "failed to read from client") rfl rfl⟩

/-- C9, evaluated on a session in which the server marker is consumed before
any client marker: the plaintext call of `proxy` returns success having stopped
only the server pump, `serve` starts the TLS phase with its two new pumps, and
three reader goroutines are live.  With the markers in the usual order both
plaintext pumps have returned and two are live. -/
theorem proceed_before_starttls_leaves_three_pumps :
    (serve ⟨[], []⟩
        ⟨none, [], [⟨8, none, strBytes "<proceed"⟩], [], [], [⟨.server, none⟩], []⟩ 1).plain =
      some ⟨[.print (strBytes "S1|<proceed|\n"), .write .client (strBytes "<proceed"),
          .print (strBytes "X1: server goes TLS\n"), .next .server false],
        ⟨⟨[], .publishing⟩, ⟨[], .terminated⟩⟩, .returned none⟩ ∧
    (serve ⟨[], []⟩
        ⟨none, [], [⟨8, none, strBytes "<proceed"⟩], [], [], [⟨.server, none⟩], []⟩ 1).tls =
      some ⟨[], ⟨⟨[], .publishing⟩, ⟨[], .publishing⟩⟩, .running⟩ ∧
    (serve ⟨[], []⟩
        ⟨none, [], [⟨8, none, strBytes "<proceed"⟩], [], [], [⟨.server, none⟩], []⟩ 1).livePumps = 3 ∧
    (serve ⟨[], []⟩
        ⟨none, [⟨9, none, strBytes "<starttls"⟩], [⟨8, none, strBytes "<proceed"⟩], [], [],
          [⟨.client, none⟩, ⟨.server, none⟩], []⟩ 1).livePumps = 2 := by
  decide

/-- C4: in the TLS-intercepted phase, whatever the two connections deliver and
whatever the schedule, `proxy` never returns success, never answers a pump with
false and leaves both pumps live; when it returns, its result is a read or
write failure of the network wrapped with the message of the failed step; and
after every error-free outcome whose write succeeds, marker or not, it answers
that pump with true, which makes the pump read again, and keeps looping. -/
theorem tls_phase_ends_only_on_io_error (fl : Flags) (client server : List ReadResult)
    (idx : Int) (sched : List Ready) :
    (proxy fl client server idx false sched).status ≠ .returned none ∧
    (∀ s, Effect.next s false ∉ (proxy fl client server idx false sched).effects) ∧
    (proxy fl client server idx false sched).loop.client.live = true ∧
    (proxy fl client server idx false sched).loop.server.live = true ∧
    (∀ e, (proxy fl client server idx false sched).status = .returned (some e) →
      IOFailure client server sched e) ∧
    (∀ (st : Loop) (result : ReadResult) (pump : Pump), result.err = none →
      st.client.recv = some (result, pump) →
      proxyIter fl idx false st ⟨.client, none⟩ =
        ⟨[.print (payloadLine "C" idx (clientOut fl result)), .write .server (clientOut fl result),
            .next .client true],
          ⟨⟨pump.reads, .publishing⟩, st.server⟩, .running⟩) ∧
    (∀ (st : Loop) (result : ReadResult) (pump : Pump), result.err = none →
      st.server.recv = some (result, pump) →
      proxyIter fl idx false st ⟨.server, none⟩ =
        ⟨[.print (payloadLine "S" idx (result.buf.take result.n)),
            .write .client (serverOut fl result), .next .server true],
          ⟨st.client, ⟨pump.reads, .publishing⟩⟩, .running⟩) := by
  obtain ⟨h1, h2, h3, h4, -, -, h7⟩ :=
    proxyLoop_tls fl idx sched ⟨startReader client, startReader server⟩
  refine ⟨h1, h2, h3 rfl, h4 rfl, h7, ?_, ?_⟩
  · intro st result pump herr hrecv
    rw [proxyIter_client fl idx false none hrecv,
      clientCase_plain fl idx false st result pump herr (by simp)]
    simp [Pump.send, (recv_pump hrecv).2]
  · intro st result pump herr hrecv
    rw [proxyIter_server fl idx false none hrecv,
      serverCase_plain fl idx false st result pump herr (by simp)]
    simp [Pump.send, (recv_pump hrecv).2]

theorem tls_phase_ends_only_on_io_error_witness :
    (⟨8, none, strBytes "<proceed"⟩ : ReadResult).err = none ∧
    (⟨startReader [], startReader [⟨8, none, strBytes "<proceed"⟩]⟩ : Loop).server.recv =
      some (⟨8, none, strBytes "<proceed"⟩, ⟨[], .awaiting⟩) ∧
    proxyIter ⟨[], []⟩ 1 false ⟨startReader [], startReader [⟨8, none, strBytes "<proceed"⟩]⟩
        ⟨.server, none⟩ =
      ⟨[.print (strBytes "S1|<proceed|\n"), .write .client (strBytes "<proceed"),
          .next .server true],
        ⟨startReader [], ⟨[], .publishing⟩⟩, .running⟩ :=
  ⟨rfl, rfl,
    (tls_phase_ends_only_on_io_error ⟨[], []⟩ [] [] 1 []).2.2.2.2.2.2
      ⟨startReader [], startReader [⟨8, none, strBytes "<proceed"⟩]⟩
      ⟨8, none, strBytes "<proceed"⟩ ⟨[], .awaiting⟩ rfl rfl⟩

/-- C3: in the plaintext phase, an error-free client outcome whose substituted
slice contains the client marker and whose write to the server succeeds is
printed, written, followed by the notice "client goes TLS" and answered with
false, which ends the client pump, and the loop keeps running.  From then on,
along every schedule, the client pump stays as it is (no further client
outcome is received) and nothing of the client case happens again, in
particular no second "client goes TLS"; and as long as the loop has not
returned, every error-free server outcome is still printed and written to the
client.  Over a whole call of `proxy` the notice "client goes TLS" is printed
at most once. -/
theorem client_marker_silences_client_pump (fl : Flags) (idx : Int) (st : Loop)
    (result : ReadResult) (pump : Pump) (hrecv : st.client.recv = some (result, pump))
    (herr : result.err = none)
    (hmark : bytesContains (clientOut fl result) clientTLSMarker = true) :
    proxyIter fl idx true st ⟨.client, none⟩ =
      ⟨[.print (payloadLine "C" idx (clientOut fl result)), .write .server (clientOut fl result),
          .print (noticeLine idx "client goes TLS"), .next .client false],
        ⟨⟨pump.reads, .terminated⟩, st.server⟩, .running⟩ ∧
    (∀ (client server : List ReadResult) (sched : List Ready),
      (proxy fl client server idx true sched).effects.count
        (.print (noticeLine idx "client goes TLS")) ≤ 1) ∧
    ∀ sched : List Ready,
      (proxyLoop fl idx true ⟨⟨pump.reads, .terminated⟩, st.server⟩ sched).loop.client =
        ⟨pump.reads, .terminated⟩ ∧
      (∀ w, (proxyLoop fl idx true ⟨⟨pump.reads, .terminated⟩, st.server⟩ sched).loop.client.recv =
          none ∧
        proxyIter fl idx true (proxyLoop fl idx true ⟨⟨pump.reads, .terminated⟩, st.server⟩ sched).loop
            ⟨.client, w⟩ =
          ⟨[], (proxyLoop fl idx true ⟨⟨pump.reads, .terminated⟩, st.server⟩ sched).loop,
            .running⟩) ∧
      (∀ e ∈ (proxyLoop fl idx true ⟨⟨pump.reads, .terminated⟩, st.server⟩ sched).effects,
        NotClientCase idx e) ∧
      (∀ (result2 : ReadResult) (pump2 : Pump) (w : Option GoError),
        (proxyLoop fl idx true ⟨⟨pump.reads, .terminated⟩, st.server⟩ sched).status = .running →
        (proxyLoop fl idx true ⟨⟨pump.reads, .terminated⟩, st.server⟩ sched).loop.server.recv =
          some (result2, pump2) →
        result2.err = none →
        (proxyIter fl idx true
            (proxyLoop fl idx true ⟨⟨pump.reads, .terminated⟩, st.server⟩ sched).loop
            ⟨.server, w⟩).effects.take 2 =
          [.print (payloadLine "S" idx (result2.buf.take result2.n)),
            .write .client (serverOut fl result2)]) := by
  refine ⟨?_, ?_, ?_⟩
  · rw [proxyIter_client fl idx true none hrecv,
      clientCase_marker fl idx true st result pump herr (by simp [hmark])]
    simp [Pump.send, (recv_pump hrecv).2]
  · intro client server sched
    exact proxyLoop_notice_count fl idx true sched ⟨startReader client, startReader server⟩
  · intro sched
    obtain ⟨h1, h2⟩ := proxyLoop_client_terminated fl idx true sched
      ⟨⟨pump.reads, .terminated⟩, st.server⟩ rfl
    refine ⟨h1, ?_, h2, ?_⟩
    · intro w
      have hnone : (proxyLoop fl idx true ⟨⟨pump.reads, .terminated⟩, st.server⟩
          sched).loop.client.recv = none := by
        rw [h1]
        rfl
      exact ⟨hnone, by simp [proxyIter, hnone]⟩
    · intro result2 pump2 w _ hrecv2 herr2
      rw [proxyIter_server fl idx true w hrecv2]
      exact serverCase_take2 fl idx true _ result2 pump2 w herr2

theorem client_marker_silences_client_pump_witness :
    (⟨startReader [⟨9, none, strBytes "<starttls"⟩, ⟨3, none, strBytes "abc"⟩],
        startReader [⟨2, none, strBytes "ok"⟩]⟩ : Loop).client.recv =
      some (⟨9, none, strBytes "<starttls"⟩, ⟨[⟨3, none, strBytes "abc"⟩], .awaiting⟩) ∧
    (⟨9, none, strBytes "<starttls"⟩ : ReadResult).err = none ∧
    bytesContains (clientOut ⟨[], []⟩ ⟨9, none, strBytes "<starttls"⟩) clientTLSMarker = true ∧
    proxyIter ⟨[], []⟩ 1 true
        ⟨startReader [⟨9, none, strBytes "<starttls"⟩, ⟨3, none, strBytes "abc"⟩],
          startReader [⟨2, none, strBytes "ok"⟩]⟩ ⟨.client, none⟩ =
      ⟨[.print (strBytes "C1|<starttls|\n"), .write .server (strBytes "<starttls"),
          .print (strBytes "X1: client goes TLS\n"), .next .client false],
        ⟨⟨[⟨3, none, strBytes "abc"⟩], .terminated⟩, startReader [⟨2, none, strBytes "ok"⟩]⟩,
        .running⟩ ∧
    (proxyLoop ⟨[], []⟩ 1 true
        ⟨⟨[⟨3, none, strBytes "abc"⟩], .terminated⟩, startReader [⟨2, none, strBytes "ok"⟩]⟩
        [⟨.client, none⟩, ⟨.server, none⟩, ⟨.client, none⟩]).loop.client =
      ⟨[⟨3, none, strBytes "abc"⟩], .terminated⟩ :=
  ⟨rfl, rfl, by decide,
    (client_marker_silences_client_pump ⟨[], []⟩ 1
      ⟨startReader [⟨9, none, strBytes "<starttls"⟩, ⟨3, none, strBytes "abc"⟩],
        startReader [⟨2, none, strBytes "ok"⟩]⟩
      ⟨9, none, strBytes "<starttls"⟩ ⟨[⟨3, none, strBytes "abc"⟩], .awaiting⟩ rfl rfl
      (by decide)).1,
    ((client_marker_silences_client_pump ⟨[], []⟩ 1
      ⟨startReader [⟨9, none, strBytes "<starttls"⟩, ⟨3, none, strBytes "abc"⟩],
        startReader [⟨2, none, strBytes "ok"⟩]⟩
      ⟨9, none, strBytes "<starttls"⟩ ⟨[⟨3, none, strBytes "abc"⟩], .awaiting⟩ rfl rfl
      (by decide)).2.2 [⟨.client, none⟩, ⟨.server, none⟩, ⟨.client, none⟩]).1⟩

end XmppProxy
